import Mathlib

/-!
Verification of the VMC driver core of `ferminet_tum`
(`ferminet_tum/driver.py`, with the parameter container from
`ferminet_tum/params.py`).

Numeric leaves (`jnp.DeviceArray` entries) are modelled as exact rationals;
a parameter pytree is a binary tree whose leaves are flat arrays of
rationals.  The sampler, Hamiltonian, network ansatz and optimizer are
external collaborators (they live outside `driver.py`), so they enter the
development as explicit function arguments.  The IEEE-754 special values
needed by the numerical-safety substitution are modelled separately by the
type `FVal`.
-/

namespace FerminetTum

/-- A numeric array leaf (a flattened `jnp.DeviceArray`). -/
abbrev Arr := List ℚ

/-- A jax pytree with values at the leaves (models the `NetParams`
pytree of `params.py`: nine fields of arrays, i.e. a finite tree shape). -/
inductive PTree (α : Type) where
  | leaf : α → PTree α
  | node : PTree α → PTree α → PTree α
deriving DecidableEq, Repr

namespace PTree

/-- `jax.tree_util.tree_map` with one tree argument. -/
def map (f : α → β) : PTree α → PTree β
  | .leaf a => .leaf (f a)
  | .node l r => .node (map f l) (map f r)

/-- `jax.tree_util.tree_map` with two tree arguments.  jax raises a
structure error on mismatched trees; the mismatch branch here returns the
first tree and is never exercised by the theorems, which only concern
structurally matching trees. -/
def map2 (f : α → β → α) : PTree α → PTree β → PTree α
  | .leaf a, .leaf b => .leaf (f a b)
  | .node l r, .node m s => .node (map2 f l m) (map2 f r s)
  | t, _ => t

/-- Leaf lookup along a path (`false` = left branch, `true` = right branch). -/
def leafGet : PTree α → List Bool → Option α
  | .leaf a, [] => some a
  | .node l _, false :: p => leafGet l p
  | .node _ r, true :: p => leafGet r p
  | _, _ => none

/-- Leafwise relation between two trees of identical structure. -/
inductive Forall2 (R : α → β → Prop) : PTree α → PTree β → Prop where
  | leaf : ∀ {a b}, R a b → Forall2 R (.leaf a) (.leaf b)
  | node : ∀ {l r m s}, Forall2 R l m → Forall2 R r s →
      Forall2 R (.node l r) (.node m s)

/-- Does every leaf satisfy the boolean predicate? -/
def all (p : α → Bool) : PTree α → Bool
  | .leaf a => p a
  | .node l r => all p l && all p r

end PTree

/-- Modelled from the spec: `jax.random.PRNGKey n` (library code, not under
src/) — the root seed of stream `n`. -/
def PRNGKey (n : Nat) : Nat := n

/-- Modelled from the spec: `jax.random.split` (library code, not under
src/) — a deterministic, collision-free split of one seed into two fresh
seeds, realised as binary-tree labelling of `Nat` keys: the two children of
key `k` are `2*k+1` and `2*k+2`, so distinct keys have disjoint offspring
and neither child equals any ancestor. -/
def splitKey (k : Nat) : Nat × Nat := (2 * k + 1, 2 * k + 2)

/-- The interface of `Hamiltonian.calc_local_energy` (external collaborator):
parameters and a walker configuration give a scalar local energy. -/
abbrev Hamiltonian := PTree Arr → Arr → ℚ

/-- The interface of `Sampler.next_sample` (external collaborator):
log-amplitude, parameters, configuration and a seed give the next
configuration, the next log-amplitude and a per-parameter statistic tree. -/
abbrev SamplerFn := ℚ → PTree Arr → Arr → Nat → Arr × ℚ × PTree Arr

/-- The carry threaded through the scan of `NNQS.calc_local_energies`
(driver.py line 110): the tuple
`(log_psi, params, walker_cfg, sum_O, sum_O_times_local_energy, seed)`. -/
structure Carry where
  log_psi : ℚ
  params : PTree Arr
  walker_cfg : Arr
  sum_O : PTree Arr
  sum_O_times_local_energy : PTree Arr
  seed : Nat

/-- `NNQS.calc_local_energy_kernel` (driver.py lines 49-86): one step of the
scan.  The source splits the incoming seed into `(subseed, seed)`, evaluates
the local energy, advances the sampler with the post-split `seed`, adds the
sampler statistic into both accumulators, and returns the new carry (whose
seed slot holds `subseed`) together with the local energy. -/
def calc_local_energy_kernel (H : Hamiltonian) (S : SamplerFn) (carry : Carry) :
    Carry × ℚ :=
  let sp := splitKey carry.seed
  let subseed := sp.1
  let seed := sp.2
  let local_energy := H carry.params carry.walker_cfg
  let res := S carry.log_psi carry.params carry.walker_cfg seed
  let next_walker_cfg := res.1
  let next_log_psi := res.2.1
  let next_O := res.2.2
  let sum_O := PTree.map2 (fun x y => List.zipWith (fun a b => a + b) x y)
    carry.sum_O next_O
  let sum_O_times_local_energy :=
    PTree.map2 (fun x y => List.zipWith (fun a b => a + b * local_energy) x y)
      carry.sum_O_times_local_energy next_O
  (⟨next_log_psi, carry.params, next_walker_cfg, sum_O,
    sum_O_times_local_energy, subseed⟩, local_energy)

/-- `jax.lax.scan` with `xs = None` and an explicit `length`: iterate the
kernel sequentially, collecting the emitted outputs in order. -/
def scan (f : Carry → Carry × ℚ) : Carry → Nat → Carry × List ℚ
  | c, 0 => (c, [])
  | c, n + 1 =>
    let step := f c
    let rest := scan f step.1 n
    (rest.1, step.2 :: rest.2)

/-- The carry part of one kernel step. -/
def stepCarry (H : Hamiltonian) (S : SamplerFn) (c : Carry) : Carry :=
  (calc_local_energy_kernel H S c).1

/-- `jax.tree_util.tree_map(lambda x: x * 0, params)`
(driver.py lines 114-115): the all-zero accumulator of the same shape. -/
def zeros_like (params : PTree Arr) : PTree Arr :=
  PTree.map (fun x => x.map (fun a => a * 0)) params

/-- The initial carry built at driver.py lines 110-117. -/
def init_carry (init_walker_cfg : Arr) (init_log_psi : ℚ) (params : PTree Arr)
    (seed : Nat) : Carry :=
  ⟨init_log_psi, params, init_walker_cfg, zeros_like params,
    zeros_like params, seed⟩

/-- `NNQS.calc_local_energies` (driver.py lines 88-131): scan the kernel
`batch_size` times from the initial carry, then return the local energies,
their batch mean, and the two accumulator means. -/
def calc_local_energies (H : Hamiltonian) (S : SamplerFn) (batch_size : Nat)
    (init_walker_cfg : Arr) (init_log_psi : ℚ) (params : PTree Arr)
    (seed : Nat) : List ℚ × ℚ × PTree Arr × PTree Arr :=
  let carry0 := init_carry init_walker_cfg init_log_psi params seed
  let res := scan (calc_local_energy_kernel H S) carry0 batch_size
  let local_energies := res.2
  let E := local_energies.sum / (batch_size : ℚ)
  let O := PTree.map (fun x => x.map (fun a => a / (batch_size : ℚ)))
    res.1.sum_O
  let O_times_local_energy :=
    PTree.map (fun x => x.map (fun a => a / (batch_size : ℚ)))
      res.1.sum_O_times_local_energy
  (local_energies, E, O, O_times_local_energy)

/-- The gradient estimator of driver.py lines 169-171 before the
numerical-safety substitution: leafwise `x - y * E`, elementwise on the leaf
arrays, with `x` from `O_times_local_energy` and `y` from `O`.  Over exact
rationals the subsequent `jnp.nan_to_num` is the identity; the substitution
stage itself is modelled over `FVal` below. -/
def grad_L_pre (E : ℚ) (O_times_local_energy O : PTree Arr) : PTree Arr :=
  PTree.map2 (fun x y => List.zipWith (fun a b => a - b * E) x y)
    O_times_local_energy O

/-- An IEEE-754 scalar as seen by the numerical-safety substitution: either
an (exactly represented) finite value, or one of the special values. -/
inductive FVal where
  | finite : ℚ → FVal
  | nan : FVal
  | posInf : FVal
  | negInf : FVal
deriving DecidableEq, Repr

/-- The largest finite float32 value, `(2 - 2^(-23)) * 2^127`. -/
def maxFinite : ℚ := 2 ^ 128 - 2 ^ 104

/-- Modelled from the spec: `jnp.nan_to_num` with default arguments (library
code, not under src/) — NaN becomes zero, positive infinity the largest
finite value, negative infinity the most negative finite value, and finite
inputs pass through unchanged. -/
def nan_to_num : FVal → FVal
  | .nan => .finite 0
  | .posInf => .finite maxFinite
  | .negInf => .finite (-maxFinite)
  | .finite q => .finite q

/-- Is this scalar an ordinary finite number? -/
def FVal.isFinite : FVal → Bool
  | .finite _ => true
  | _ => false

/-- The numerical-safety substitution stage of driver.py lines 169-171,
applied elementwise to a tree of already-computed (possibly non-finite)
gradient values. -/
def grad_L_safe (g : PTree (List FVal)) : PTree (List FVal) :=
  PTree.map (fun x => x.map nan_to_num) g

/-- The interface of the network ansatz used by `NNQS.train` (external
collaborator): walker initialization (driver.py lines 159-160, with the
`jnp.concatenate` flattening folded into the returned array) and the forward
pass `FermiNet.apply`. -/
structure FermiNetI where
  init_walker_config : ℚ → Nat → Arr
  apply : PTree Arr → Arr → ℚ

/-- The optax-style optimizer interface used by `NNQS.train` (external
collaborator): `init(params)` and `update(grad, opt_state, params)`. -/
structure Optimizer (σ : Type) where
  init : PTree Arr → σ
  update : PTree Arr → σ → PTree Arr → PTree Arr × σ

/-- Modelled from the spec: `optax.apply_updates` (library code, not under
src/) — add the update tree elementwise to the parameters (spec interface
`applyUpdates : parameters, updates → newParameters`). -/
def apply_updates (params updates : PTree Arr) : PTree Arr :=
  PTree.map2 (fun x y => List.zipWith (fun a b => a + b) x y) params updates

/-- The loop state of `NNQS.train` (driver.py lines 133-194): the current
parameters, optimizer state, the evolving `key`, and the energy history
`Es`.  `batch_seeds` is a ghost log recording, per iteration, the seed
argument of the `calc_local_energies` call; it influences nothing. -/
structure TrainState (σ : Type) where
  params : PTree Arr
  opt_state : σ
  key : Nat
  Es : List ℚ
  batch_seeds : List Nat

/-- One iteration of the loop body of `NNQS.train` (driver.py lines
157-176), display and plotting omitted.  Faithful details: line 158 binds
`subkey, key = jax.random.split(key)` and never uses `subkey`, so only the
second split component survives; line 159 passes the post-split `key` (not
the subkey) to `init_walker_config`; line 162 splits that same key again,
its `subkey` also unused; the `jitted_calc_local_energies` call at lines
165-167 passes no seed, so the default `jax.random.PRNGKey(0)` of
`calc_local_energies` applies; over exact rationals `jnp.nan_to_num` at
line 170 is the identity, so `grad_L` is `grad_L_pre`. -/
def trainStep (H : Hamiltonian) (S : SamplerFn) (B : Nat) (fn : FermiNetI)
    (opt : Optimizer σ) (s : TrainState σ) : TrainState σ :=
  let key1 := (splitKey s.key).2
  let walker_cfg := fn.init_walker_config 1 key1
  let key2 := (splitKey key1).2
  let log_psi := fn.apply s.params walker_cfg
  let res := calc_local_energies H S B walker_cfg log_psi s.params (PRNGKey 0)
  let E := res.2.1
  let O := res.2.2.1
  let O_times_local_energy := res.2.2.2
  let grad_L := grad_L_pre E O_times_local_energy O
  let upd := opt.update grad_L s.opt_state s.params
  { params := apply_updates s.params upd.1
    opt_state := upd.2
    key := key2
    Es := s.Es ++ [E]
    batch_seeds := s.batch_seeds ++ [PRNGKey 0] }

/-- The state at the top of the loop of `NNQS.train` (driver.py lines
145-155): freshly initialized optimizer state, `key = PRNGKey 0`, empty
energy history. -/
def init_train_state (opt : Optimizer σ) (params : PTree Arr) : TrainState σ :=
  { params := params
    opt_state := opt.init params
    key := PRNGKey 0
    Es := []
    batch_seeds := [] }

/-- `NNQS.train` (driver.py lines 133-194) with display and plotting
omitted: iterate the loop body `n_iters` times.  The source returns
`(params, Es)`; the model returns the whole final state so theorems can
project any component.  Note: the source body as written would raise a
`NameError` at line 151 (`plt.subplots`) because `matplotlib.pyplot` is
never imported in driver.py. -/
def train (H : Hamiltonian) (S : SamplerFn) (B : Nat) (fn : FermiNetI)
    (opt : Optimizer σ) (n_iters : Nat) (params : PTree Arr) : TrainState σ :=
  (trainStep H S B fn opt)^[n_iters] (init_train_state opt params)

/-- The batch-mean energy computed inside one `trainStep` from a given loop
state (the `E` component of the `calc_local_energies` result at driver.py
line 165). -/
def trainStepE (H : Hamiltonian) (S : SamplerFn) (B : Nat) (fn : FermiNetI)
    (s : TrainState σ) : ℚ :=
  let key1 := (splitKey s.key).2
  let walker_cfg := fn.init_walker_config 1 key1
  let log_psi := fn.apply s.params walker_cfg
  (calc_local_energies H S B walker_cfg log_psi s.params (PRNGKey 0)).2.1

/-- The seed handed to the sampler at step `i` of a batch started from carry
`c0`: the second component of the split of the step-`i` carry seed
(driver.py lines 66 and 70-72). -/
def consumed_seed (H : Hamiltonian) (S : SamplerFn) (c0 : Carry) (i : Nat) :
    Nat :=
  (splitKey ((stepCarry H S)^[i] c0).seed).2

/-- Modelled from the spec (amended reading of §4.1, matching the data flow
of driver.py lines 64-86): the incoming seed is split into
`(subseed, nextSeed)`; `nextSample` consumes `nextSeed`, and `subseed` is
the seed placed in the output carry for subsequent steps. -/
def kernel_step_amended (H : Hamiltonian) (S : SamplerFn) (c : Carry) :
    Carry × ℚ :=
  let subseed := (splitKey c.seed).1
  let nextSeed := (splitKey c.seed).2
  let localEnergy := H c.params c.walker_cfg
  let r := S c.log_psi c.params c.walker_cfg nextSeed
  (⟨r.2.1, c.params, r.1,
    PTree.map2 (fun x y => List.zipWith (fun a b => a + b) x y) c.sum_O r.2.2,
    PTree.map2 (fun x y => List.zipWith (fun a b => a + b * localEnergy) x y)
      c.sum_O_times_local_energy r.2.2,
    subseed⟩, localEnergy)

/-- A sampler stub that echoes the seed it receives through the returned
log-amplitude, leaving the configuration unchanged. -/
def probe_sampler : SamplerFn :=
  fun _ _ cfg sd => (cfg, (sd : ℚ), PTree.leaf [])

/-- A sampler stub that changes nothing and reports an empty statistic. -/
def const_sampler : SamplerFn :=
  fun lp _ cfg _ => (cfg, lp, PTree.leaf [])

/-- The identically-zero Hamiltonian stub. -/
def zero_hamiltonian : Hamiltonian := fun _ _ => 0

/-- A one-leaf carry with seed 0, for concrete evaluations. -/
def probe_carry : Carry :=
  ⟨0, PTree.leaf [], [], PTree.leaf [], PTree.leaf [], 0⟩

/-! ## Helper lemmas -/

theorem PTree.leafGet_map2 (f : α → β → α) (t1 : PTree α) (t2 : PTree β)
    (p : List Bool) (a : α) (b : β) (h1 : t1.leafGet p = some a)
    (h2 : t2.leafGet p = some b) :
    (PTree.map2 f t1 t2).leafGet p = some (f a b) := by
  induction t1 generalizing t2 p with
  | leaf x =>
    cases t2 with
    | leaf y =>
      cases p with
      | nil =>
        simp [PTree.leafGet] at h1 h2
        simp [PTree.map2, PTree.leafGet, h1, h2]
      | cons hd tl => simp [PTree.leafGet] at h1
    | node m s =>
      cases p with
      | nil => simp [PTree.leafGet] at h2
      | cons hd tl => simp [PTree.leafGet] at h1
  | node l r ihl ihr =>
    cases t2 with
    | leaf y =>
      cases p with
      | nil => simp [PTree.leafGet] at h1
      | cons hd tl => cases hd <;> simp [PTree.leafGet] at h2
    | node m s =>
      cases p with
      | nil => simp [PTree.leafGet] at h1
      | cons hd tl =>
        cases hd with
        | false =>
          simp [PTree.leafGet] at h1 h2
          simpa [PTree.map2, PTree.leafGet] using ihl m tl h1 h2
        | true =>
          simp [PTree.leafGet] at h1 h2
          simpa [PTree.map2, PTree.leafGet] using ihr s tl h1 h2

theorem scan_kernel_fst (H : Hamiltonian) (S : SamplerFn) (c : Carry)
    (n : Nat) :
    (scan (calc_local_energy_kernel H S) c n).1 = (stepCarry H S)^[n] c := by
  induction n generalizing c with
  | zero => rfl
  | succ n ih =>
    rw [Function.iterate_succ_apply]
    simpa [scan] using ih (stepCarry H S c)

theorem scan_kernel_length (H : Hamiltonian) (S : SamplerFn) (c : Carry)
    (n : Nat) :
    (scan (calc_local_energy_kernel H S) c n).2.length = n := by
  induction n generalizing c with
  | zero => rfl
  | succ n ih => simpa [scan] using ih (stepCarry H S c)

theorem scan_kernel_get (H : Hamiltonian) (S : SamplerFn) (c : Carry)
    (n i : Nat) (h : i < n) :
    (scan (calc_local_energy_kernel H S) c n).2.get? i =
      some (calc_local_energy_kernel H S ((stepCarry H S)^[i] c)).2 := by
  induction n generalizing c i with
  | zero => exact absurd h (Nat.not_lt_zero i)
  | succ n ih =>
    cases i with
    | zero => simp [scan]
    | succ i =>
      rw [Function.iterate_succ_apply]
      simpa [scan] using ih (stepCarry H S c) i (Nat.lt_of_succ_lt_succ h)

theorem stepCarry_seed (H : Hamiltonian) (S : SamplerFn) (c : Carry) :
    (stepCarry H S c).seed = 2 * c.seed + 1 := rfl

theorem iterate_stepCarry_seed (H : Hamiltonian) (S : SamplerFn) (c : Carry)
    (n : Nat) :
    ((stepCarry H S)^[n] c).seed = (fun t => 2 * t + 1)^[n] c.seed := by
  induction n generalizing c with
  | zero => rfl
  | succ n ih =>
    rw [Function.iterate_succ_apply, Function.iterate_succ_apply, ih]
    rfl

theorem seed_chain_strictMono (s : Nat) :
    StrictMono (fun n => (fun t => 2 * t + 1)^[n] s) :=
  strictMono_nat_of_lt_succ (fun n => by
    simp only [Function.iterate_succ_apply']
    omega)

theorem forall2_map_right {α β : Type} (f : α → β) (R : α → β → Prop)
    (h : ∀ x, R x (f x)) : ∀ l : List α, List.Forall₂ R l (l.map f)
  | [] => List.Forall₂.nil
  | a :: l => List.Forall₂.cons (h a) (forall2_map_right f R h l)

theorem nan_to_num_policy (v : FVal) :
    (v = FVal.nan → nan_to_num v = FVal.finite 0) ∧
    ∀ q : ℚ, v = FVal.finite q → nan_to_num v = FVal.finite q :=
  ⟨by rintro rfl; rfl, by rintro q rfl; rfl⟩

theorem all_finite_map (l : List FVal) :
    (l.map nan_to_num).all FVal.isFinite = true := by
  induction l with
  | nil => rfl
  | cons a l ih => cases a <;> simp [nan_to_num, FVal.isFinite, ih]

theorem trainStep_batch_seeds {σ : Type} (H : Hamiltonian) (S : SamplerFn)
    (B : Nat) (fn : FermiNetI) (opt : Optimizer σ) (s : TrainState σ) :
    (trainStep H S B fn opt s).batch_seeds = s.batch_seeds ++ [PRNGKey 0] :=
  rfl

theorem trainStep_Es {σ : Type} (H : Hamiltonian) (S : SamplerFn)
    (B : Nat) (fn : FermiNetI) (opt : Optimizer σ) (s : TrainState σ) :
    (trainStep H S B fn opt s).Es = s.Es ++ [trainStepE H S B fn s] :=
  rfl

theorem train_Es_iterate {σ : Type} (H : Hamiltonian) (S : SamplerFn)
    (B : Nat) (fn : FermiNetI) (opt : Optimizer σ) (n : Nat)
    (s : TrainState σ) :
    ((trainStep H S B fn opt)^[n] s).Es =
      s.Es ++ (List.range n).map
        (fun i => trainStepE H S B fn ((trainStep H S B fn opt)^[i] s)) := by
  induction n with
  | zero => simp
  | succ n ih =>
    rw [Function.iterate_succ_apply', trainStep_Es, ih, List.range_succ]
    simp

/-! ## Claim theorems -/

/-- C1: before the numerical-safety substitution, the gradient estimator
computes, at every leaf position of the parameter tree,
`grad_L[leaf] = O_times_E[leaf] - O[leaf] * E` (elementwise on the leaf
array, with the scalar `E` broadcast). -/
theorem grad_L_pre_leafwise (E : ℚ) (O_times_E O : PTree Arr) (p : List Bool)
    (a b : Arr) (h1 : O_times_E.leafGet p = some a)
    (h2 : O.leafGet p = some b) :
    (grad_L_pre E O_times_E O).leafGet p =
      some (List.zipWith (fun u v => u - v * E) a b) :=
  PTree.leafGet_map2 _ _ _ _ _ _ h1 h2

theorem grad_L_pre_leafwise_witness :
    PTree.leafGet (PTree.leaf ([3, 4] : Arr)) [] = some [3, 4] ∧
    PTree.leafGet (PTree.leaf ([2, 1] : Arr)) [] = some [2, 1] ∧
    (grad_L_pre 5 (PTree.leaf [3, 4]) (PTree.leaf [2, 1])).leafGet [] =
      some (List.zipWith (fun u v => u - v * 5) [3, 4] [2, 1]) :=
  ⟨rfl, rfl, grad_L_pre_leafwise 5 (PTree.leaf [3, 4]) (PTree.leaf [2, 1])
    [] [3, 4] [2, 1] rfl rfl⟩

/-- C2: the batch evaluator runs the local-energy kernel exactly
`batch_size` times in strict sequential order (each step's output carry is
the next step's input carry): the trace has length `batch_size` and its
`i`-th entry is the energy emitted by the kernel at the `i`-fold iterate of
the step function; `E` is the mean of the trace; `O` and `O_times_E` are
the final accumulators of the `batch_size`-fold iterate, divided per leaf
element by `batch_size`. -/
theorem calc_local_energies_spec (H : Hamiltonian) (S : SamplerFn)
    (batch_size : Nat) (cfg0 : Arr) (lp0 : ℚ) (params : PTree Arr)
    (seed : Nat) :
    (calc_local_energies H S batch_size cfg0 lp0 params seed).1.length =
      batch_size ∧
    (calc_local_energies H S batch_size cfg0 lp0 params seed).2.1 =
      (calc_local_energies H S batch_size cfg0 lp0 params seed).1.sum /
        (((calc_local_energies H S batch_size cfg0 lp0 params seed).1.length
          : ℚ)) ∧
    (calc_local_energies H S batch_size cfg0 lp0 params seed).2.2.1 =
      PTree.map (fun x => x.map (fun a => a / (batch_size : ℚ)))
        ((stepCarry H S)^[batch_size]
          (init_carry cfg0 lp0 params seed)).sum_O ∧
    (calc_local_energies H S batch_size cfg0 lp0 params seed).2.2.2 =
      PTree.map (fun x => x.map (fun a => a / (batch_size : ℚ)))
        ((stepCarry H S)^[batch_size]
          (init_carry cfg0 lp0 params seed)).sum_O_times_local_energy ∧
    ∀ i : Fin batch_size,
      (calc_local_energies H S batch_size cfg0 lp0 params seed).1.get?
          i.val =
        some (calc_local_energy_kernel H S
          ((stepCarry H S)^[i.val] (init_carry cfg0 lp0 params seed))).2 := by
  refine ⟨?_, ?_, ?_, ?_, ?_⟩
  · simpa [calc_local_energies] using
      scan_kernel_length H S (init_carry cfg0 lp0 params seed) batch_size
  · simp [calc_local_energies,
      scan_kernel_length H S (init_carry cfg0 lp0 params seed) batch_size]
  · simp [calc_local_energies,
      scan_kernel_fst H S (init_carry cfg0 lp0 params seed) batch_size]
  · simp [calc_local_energies,
      scan_kernel_fst H S (init_carry cfg0 lp0 params seed) batch_size]
  · intro i
    simpa [calc_local_energies] using
      scan_kernel_get H S (init_carry cfg0 lp0 params seed) batch_size
        i.val i.isLt

/-- C3 is false as stated: with a probe sampler that echoes the seed it
receives through the returned log-amplitude, at carry seed 0 the kernel
hands the sampler `(splitKey 0).2 = 2` and not the sub-seed
`(splitKey 0).1 = 1`, and the output carry holds the sub-seed 1 and not the
continuation component 2. -/
theorem kernel_seed_roles_counterexample :
    (calc_local_energy_kernel zero_hamiltonian probe_sampler
        probe_carry).1.log_psi ≠ ((splitKey 0).1 : ℚ) ∧
    (calc_local_energy_kernel zero_hamiltonian probe_sampler
        probe_carry).1.log_psi = ((splitKey 0).2 : ℚ) ∧
    (calc_local_energy_kernel zero_hamiltonian probe_sampler
        probe_carry).1.seed ≠ (splitKey 0).2 ∧
    (calc_local_energy_kernel zero_hamiltonian probe_sampler
        probe_carry).1.seed = (splitKey 0).1 := by
  refine ⟨?_, rfl, by decide, rfl⟩
  simp [calc_local_energy_kernel, probe_sampler, probe_carry, splitKey]

/-- C3 amended: in every step of the local-energy kernel the incoming seed
is split into `(subseed, nextSeed)`; the sampler's `nextSample` is called
with `nextSeed`, which is consumed only in that step, and `subseed` is the
seed placed in the output carry for subsequent steps. -/
theorem kernel_seed_roles_amended (H : Hamiltonian) (S : SamplerFn)
    (c : Carry) :
    calc_local_energy_kernel H S c = kernel_step_amended H S c := rfl

/-- C4 is violated by the code: the seed log of a training run of any
length is a constant list — every iteration hands `calc_local_energies` the
same default seed `PRNGKey 0`, because the call at driver.py lines 165-167
omits the seed argument; in particular any two iterations receive equal
seeds. -/
theorem train_batch_seed_constant {σ : Type} (H : Hamiltonian)
    (S : SamplerFn) (B : Nat) (fn : FermiNetI) (opt : Optimizer σ)
    (n_iters : Nat) (params : PTree Arr) :
    (train H S B fn opt n_iters params).batch_seeds =
      List.replicate n_iters (PRNGKey 0) ∧
    ∀ i j : Fin n_iters,
      (train H S B fn opt n_iters params).batch_seeds.get? i.val =
        (train H S B fn opt n_iters params).batch_seeds.get? j.val := by
  have key : ∀ (n : Nat) (s : TrainState σ),
      ((trainStep H S B fn opt)^[n] s).batch_seeds =
        s.batch_seeds ++ List.replicate n (PRNGKey 0) := by
    intro n
    induction n with
    | zero => intro s; simp
    | succ n ih =>
      intro s
      rw [Function.iterate_succ_apply', trainStep_batch_seeds, ih,
        List.replicate_succ']
      simp
  have h0 : (train H S B fn opt n_iters params).batch_seeds =
      List.replicate n_iters (PRNGKey 0) := by
    simpa [train, init_train_state] using
      key n_iters (init_train_state opt params)
  refine ⟨h0, ?_⟩
  intro i j
  rw [h0]
  simp [List.get?_eq_getElem?, i.isLt, j.isLt]

/-- C5: the numerical-safety substitution, elementwise at every leaf of the
gradient tree, replaces every NaN element by zero and passes every finite
element through to the optimizer unmodified. -/
theorem grad_L_safe_nan_policy (g : PTree (List FVal)) :
    PTree.Forall2
      (List.Forall₂ (fun x y =>
        (x = FVal.nan → y = FVal.finite 0) ∧
        ∀ q : ℚ, x = FVal.finite q → y = FVal.finite q))
      g (grad_L_safe g) := by
  induction g with
  | leaf x =>
    exact PTree.Forall2.leaf (forall2_map_right nan_to_num
      (fun u v => (u = FVal.nan → v = FVal.finite 0) ∧
        ∀ q : ℚ, u = FVal.finite q → v = FVal.finite q)
      nan_to_num_policy x)
  | node l r ihl ihr => exact PTree.Forall2.node ihl ihr

/-- C6: at the start of a batch both sufficient-statistic accumulators are
initialized to `tree_map (x * 0) params`: a tree of the same shape as the
parameters, with every leaf array of the same length and every element
equal to zero, whatever the parameter values. -/
theorem accumulators_init_zero (cfg0 : Arr) (lp0 : ℚ) (params : PTree Arr)
    (seed : Nat) :
    (init_carry cfg0 lp0 params seed).sum_O = zeros_like params ∧
    (init_carry cfg0 lp0 params seed).sum_O_times_local_energy =
      zeros_like params ∧
    PTree.Forall2 (fun x z => z.length = x.length ∧ ∀ q ∈ z, q = 0)
      params (zeros_like params) := by
  refine ⟨rfl, rfl, ?_⟩
  induction params with
  | leaf x =>
    refine PTree.Forall2.leaf ⟨by simp, ?_⟩
    intro q hq
    rcases List.mem_map.mp hq with ⟨a, -, rfl⟩
    exact mul_zero a
  | node l r ihl ihr => exact PTree.Forall2.node ihl ihr

/-- C7 (proved on the display-stripped model; the source `train` as written
raises a NameError at `plt.subplots` before the first iteration, since
driver.py never imports matplotlib): training performs exactly `n_iters`
iterations — the energy history has length `n_iters` and its `i`-th entry
is the batch-mean energy `E` computed in iteration `i`. -/
theorem train_energy_history {σ : Type} (H : Hamiltonian) (S : SamplerFn)
    (B : Nat) (fn : FermiNetI) (opt : Optimizer σ) (n_iters : Nat)
    (params : PTree Arr) :
    (train H S B fn opt n_iters params).Es.length = n_iters ∧
    ∀ i : Fin n_iters,
      (train H S B fn opt n_iters params).Es.get? i.val =
        some (trainStepE H S B fn
          ((trainStep H S B fn opt)^[i.val] (init_train_state opt params))) := by
  have h0 : (train H S B fn opt n_iters params).Es =
      (List.range n_iters).map
        (fun i => trainStepE H S B fn
          ((trainStep H S B fn opt)^[i] (init_train_state opt params))) := by
    simpa [train, init_train_state] using
      train_Es_iterate H S B fn opt n_iters (init_train_state opt params)
  refine ⟨by simp [h0], ?_⟩
  intro i
  rw [h0]
  simp [List.get?_eq_getElem?, i.isLt]

/-- C8: within one batch, the sub-seeds consumed by the sampler at two
different steps are always distinct — each kernel step consumes one fresh
half of a collision-free split whose other half seeds all later steps, so
no consumed seed recurs at any later sample of the batch. -/
theorem batch_consumed_seeds_distinct (H : Hamiltonian) (S : SamplerFn)
    (c0 : Carry) (B i j : Nat) (hi : i < B) (hj : j < B) (hij : i ≠ j) :
    consumed_seed H S c0 i ≠ consumed_seed H S c0 j := by
  intro hEq
  apply hij
  have hi' : consumed_seed H S c0 i =
      2 * (fun t => 2 * t + 1)^[i] c0.seed + 2 := by
    simp [consumed_seed, splitKey, iterate_stepCarry_seed]
  have hj' : consumed_seed H S c0 j =
      2 * (fun t => 2 * t + 1)^[j] c0.seed + 2 := by
    simp [consumed_seed, splitKey, iterate_stepCarry_seed]
  rw [hi', hj'] at hEq
  exact (seed_chain_strictMono c0.seed).injective (by omega)

theorem batch_consumed_seeds_distinct_witness :
    (0 : Nat) < 2 ∧ (1 : Nat) < 2 ∧ (0 : Nat) ≠ 1 ∧
    consumed_seed zero_hamiltonian const_sampler probe_carry 0 ≠
      consumed_seed zero_hamiltonian const_sampler probe_carry 1 :=
  ⟨by decide, by decide, by decide,
    batch_consumed_seeds_distinct zero_hamiltonian const_sampler probe_carry
      2 0 1 (by decide) (by decide) (by decide)⟩

/-- C9: the parameters component of the kernel carry is a frame — one
kernel step returns it unchanged, and after any number of steps of a batch
the carry still holds the initial parameters, so the Hamiltonian and the
sampler see identical parameters at every step. -/
theorem kernel_params_frame (H : Hamiltonian) (S : SamplerFn) (c : Carry)
    (n : Nat) :
    (calc_local_energy_kernel H S c).1.params = c.params ∧
    ((stepCarry H S)^[n] c).params = c.params := by
  refine ⟨rfl, ?_⟩
  induction n generalizing c with
  | zero => rfl
  | succ n ih =>
    rw [Function.iterate_succ_apply, ih]
    rfl

/-- C10: the substitution stage maps NaN to zero and the two infinities to
the extreme finite values (±maxFinite, with maxFinite positive), so every
element of the gradient tree handed to the optimizer is finite. -/
theorem grad_L_safe_all_finite (g : PTree (List FVal)) :
    nan_to_num FVal.nan = FVal.finite 0 ∧
    nan_to_num FVal.posInf = FVal.finite maxFinite ∧
    nan_to_num FVal.negInf = FVal.finite (-maxFinite) ∧
    0 < maxFinite ∧
    PTree.all (fun x => x.all FVal.isFinite) (grad_L_safe g) = true := by
  refine ⟨rfl, rfl, rfl, by norm_num [maxFinite], ?_⟩
  induction g with
  | leaf x => exact all_finite_map x
  | node l r ihl ihr =>
    simp only [grad_L_safe, PTree.map, PTree.all, Bool.and_eq_true]
    exact ⟨ihl, ihr⟩

end FerminetTum
